import Mathlib

/-!
# Verification of the Dollo-tree evolutionary operators

Shallow embedding of `dollo_node_operators.py` (module of evolutionary
operators for DolloNode individuals) together with the external
collaborators it uses: the `ReadElement` record and the parts of the
`DolloNode` tree contract that the operators call.  Pure functions of the
source become Lean functions; Python's dynamic typing is modelled where a
claim depends on it (`PyVal`); in-place `BitArray` mutation is modelled by
an explicit store; raised exceptions are modelled by `Option` results
(`none` = the call raises).
-/

namespace CancerGP

/-- Modelled from the spec (§3 Read Model): the `ReadElement` record of the
repository's `read_element` module (not under `src/`): an identifier, a
binary vector (`BitArray` in the source, a bit list here) and an
unknown-position mask of the same intended length.  Constructed in the
source as `ReadElement(identifier, binary_read, unknown_read)`. -/
structure ReadElement where
  identifier : String
  binary_read : List Bool
  unknown_read : List Bool
deriving DecidableEq, Repr

/-- Modelled from the spec (§3 Tree Individual): a rooted, ordered, labeled
tree node of the collaborator `DolloNode` class (not under `src/`).  Each
node carries its label (`node_label`), its derived binary signature
(`binary_tag`, refreshed by `tree_set_binary_tags`) and the ordered list of
its children.  Parent pointers of the source are represented implicitly by
the nesting. -/
inductive DolloNode where
  | mk (node_label : String) (binary_tag : List Bool) (children : List DolloNode)

/-- The label of a node. -/
def DolloNode.node_label : DolloNode → String
  | .mk l _ _ => l

/-- The derived binary signature of a node. -/
def DolloNode.binary_tag : DolloNode → List Bool
  | .mk _ tag _ => tag

/-- The ordered children of a node. -/
def DolloNode.children : DolloNode → List DolloNode
  | .mk _ _ cs => cs

mutual

/-- All nodes of the subtree rooted at `t`, in the pre-order used by
anytree's iteration (receiver first, then the children's subtrees left to
right). -/
def allNodes : DolloNode → List DolloNode
  | .mk l tag cs => .mk l tag cs :: allNodesList cs

/-- The concatenated pre-order node lists of a forest. -/
def allNodesList : List DolloNode → List DolloNode
  | [] => []
  | c :: cs => allNodes c ++ allNodesList cs

end

/-- Modelled from the spec (§6 `descendants`): the ordered sequence of all
non-root nodes of the tree (anytree's `descendants` property). -/
def descendants (t : DolloNode) : List DolloNode :=
  allNodesList t.children

/-- Python's `range(a, b)`: the list `[a, a+1, ..., b-1]` (empty when
`b ≤ a`).  Used to translate the evaluators' index loops. -/
def pyRange (a b : Nat) : List Nat :=
  List.range' a (b - a)

/-- Modelled from the spec (§4.1): the Hamming-style distance between a
node signature and a read — the number of positions where the read's
observed bit disagrees with the signature bit, restricted to positions
where the unknown mask is false. -/
def read_node_distance (sig : List Bool) (re : ReadElement) : Nat :=
  (List.range re.binary_read.length).countP
    (fun p => !(re.unknown_read.getD p false)
      && (re.binary_read.getD p false != sig.getD p false))

/-- Modelled from the spec (§4.1, §6 `closest_node_in_tree`): the
collaborator method `DolloNode.closest_node_in_tree(read)` — the tree node
whose binary signature minimizes the distance to the read, with the
deterministic tie-break "first encountered in a fixed (pre-order)
traversal order", together with that minimal distance. -/
def closest_node_in_tree (t : DolloNode) (re : ReadElement) : DolloNode × Nat :=
  (allNodes t).foldl
    (fun best n =>
      let d := read_node_distance n.binary_tag re
      if d < best.2 then (n, d) else best)
    (t, read_node_distance t.binary_tag re)

/-- `dolo_closest_node_distance(individual, read)` of the source: delegates
to `closest_node_in_tree`.  The source's `lru_cache` memoization is
semantically transparent (reads and trees are never mutated after being
used as keys), so it is not modelled. -/
def dolo_closest_node_distance (individual : DolloNode) (read : ReadElement) :
    DolloNode × Nat :=
  closest_node_in_tree individual read

/-- The perturbed read built in the body of `dollo_evaluate_direct_level1`:
`read2 = BitArray(read.binary_read); read2[i] = False;
re2 = ReadElement("XXX2", read2, read.unknown_read)`. -/
def perturbOne (read : ReadElement) (i : Nat) : ReadElement :=
  ⟨"XXX2", read.binary_read.set i false, read.unknown_read⟩

/-- The perturbed read built in the body of `dollo_evaluate_direct_level2`
(bits `i` and `j` flipped to false on a fresh copy). -/
def perturbTwo (read : ReadElement) (i j : Nat) : ReadElement :=
  ⟨"XXX2", (read.binary_read.set i false).set j false, read.unknown_read⟩

/-- The perturbed read built in the body of `dollo_evaluate_direct_level3`
(bits `i`, `j` and `k` flipped to false on a fresh copy). -/
def perturbThree (read : ReadElement) (i j k : Nat) : ReadElement :=
  ⟨"XXX2", ((read.binary_read.set i false).set j false).set k false,
    read.unknown_read⟩

/-- `dollo_evaluate_direct_level0`: sum over the reads of the
closest-node distance. -/
def dollo_evaluate_direct_level0 (reads : List ReadElement) (_alpha : ℚ)
    (individual : DolloNode) : ℚ :=
  reads.foldl
    (fun acc read => acc + ((dolo_closest_node_distance individual read).2 : ℚ))
    0

/-- `dollo_evaluate_direct_level1`: level 0 plus, for every read and every
index `i` with the read's bit set, the distance of the read with bit `i`
flipped, times `alpha`. -/
def dollo_evaluate_direct_level1 (reads : List ReadElement) (alpha : ℚ)
    (individual : DolloNode) : ℚ :=
  reads.foldl
    (fun acc read =>
      (pyRange 0 read.binary_read.length).foldl
        (fun acc2 i =>
          if read.binary_read.getD i false then
            acc2 + ((dolo_closest_node_distance individual (perturbOne read i)).2 : ℚ)
              * alpha
          else acc2)
        acc)
    (dollo_evaluate_direct_level0 reads alpha individual)

/-- `dollo_evaluate_direct_level2`: level 1 plus, for every read and every
index pair `i < j` with both bits set, the distance of the read with both
bits flipped, times `alpha * alpha`. -/
def dollo_evaluate_direct_level2 (reads : List ReadElement) (alpha : ℚ)
    (individual : DolloNode) : ℚ :=
  reads.foldl
    (fun acc read =>
      (pyRange 0 read.binary_read.length).foldl
        (fun acc2 i =>
          (pyRange (i + 1) read.binary_read.length).foldl
            (fun acc3 j =>
              if read.binary_read.getD i false && read.binary_read.getD j false then
                acc3 + ((dolo_closest_node_distance individual (perturbTwo read i j)).2 : ℚ)
                  * alpha * alpha
              else acc3)
            acc2)
        acc)
    (dollo_evaluate_direct_level1 reads alpha individual)

/-- `dollo_evaluate_direct_level3`: level 2 plus, for every read and every
index triple `i < j < k` with all three bits set, the distance of the read
with the three bits flipped, times `alpha * alpha` (the source uses the
square, not the cube). -/
def dollo_evaluate_direct_level3 (reads : List ReadElement) (alpha : ℚ)
    (individual : DolloNode) : ℚ :=
  reads.foldl
    (fun acc read =>
      (pyRange 0 read.binary_read.length).foldl
        (fun acc2 i =>
          (pyRange (i + 1) read.binary_read.length).foldl
            (fun acc3 j =>
              (pyRange (j + 1) read.binary_read.length).foldl
                (fun acc4 k =>
                  if read.binary_read.getD i false && read.binary_read.getD j false
                      && read.binary_read.getD k false then
                    acc4 + ((dolo_closest_node_distance individual
                        (perturbThree read i j k)).2 : ℚ) * alpha * alpha
                  else acc4)
                acc3)
            acc2)
        acc)
    (dollo_evaluate_direct_level2 reads alpha individual)

/-! ## Dynamic-typing model

The top-level entry point `evaluate_dollo_node_individual(reads, individual,
alpha)` forwards its arguments positionally into
`dollo_evaluate_direct_level2(reads, alpha, individual)`, so the tree lands
in the `alpha` slot and the number in the `individual` slot.  Python only
notices at run time; `PyVal` models the two run-time types involved and
`none` models a raised exception. -/

/-- A Python run-time value reaching the evaluators: a DolloNode tree or a
number. -/
inductive PyVal where
  | tree (t : DolloNode)
  | num (q : ℚ)

/-- `dolo_closest_node_distance(individual, read)` under dynamic typing:
raises (`none`) unless `individual` is a tree (`AttributeError` on
`closest_node_in_tree` otherwise). -/
def dolo_closest_node_distance_dyn (individual : PyVal) (read : ReadElement) :
    Option (DolloNode × Nat) :=
  match individual with
  | .tree t => some (dolo_closest_node_distance t read)
  | .num _ => none

/-- Python's `d * alpha` for a number `d`: raises (`none`, a `TypeError`)
unless `alpha` is a number. -/
def pyMul (d : ℚ) (alpha : PyVal) : Option ℚ :=
  match alpha with
  | .num q => some (d * q)
  | .tree _ => none

/-- `dollo_evaluate_direct_level0` under dynamic typing. -/
def dollo_evaluate_direct_level0_dyn (reads : List ReadElement)
    (_alpha individual : PyVal) : Option ℚ :=
  reads.foldlM
    (fun acc read => do
      let nd ← dolo_closest_node_distance_dyn individual read
      pure (acc + (nd.2 : ℚ)))
    0

/-- `dollo_evaluate_direct_level1` under dynamic typing. -/
def dollo_evaluate_direct_level1_dyn (reads : List ReadElement)
    (alpha individual : PyVal) : Option ℚ := do
  let v0 ← dollo_evaluate_direct_level0_dyn reads alpha individual
  reads.foldlM
    (fun acc read =>
      (pyRange 0 read.binary_read.length).foldlM
        (fun acc2 i =>
          if read.binary_read.getD i false then do
            let nd ← dolo_closest_node_distance_dyn individual (perturbOne read i)
            let p ← pyMul (nd.2 : ℚ) alpha
            pure (acc2 + p)
          else pure acc2)
        acc)
    v0

/-- `dollo_evaluate_direct_level2` under dynamic typing. -/
def dollo_evaluate_direct_level2_dyn (reads : List ReadElement)
    (alpha individual : PyVal) : Option ℚ := do
  let v1 ← dollo_evaluate_direct_level1_dyn reads alpha individual
  reads.foldlM
    (fun acc read =>
      (pyRange 0 read.binary_read.length).foldlM
        (fun acc2 i =>
          (pyRange (i + 1) read.binary_read.length).foldlM
            (fun acc3 j =>
              if read.binary_read.getD i false && read.binary_read.getD j false then do
                let nd ← dolo_closest_node_distance_dyn individual (perturbTwo read i j)
                let p1 ← pyMul (nd.2 : ℚ) alpha
                let p2 ← pyMul p1 alpha
                pure (acc3 + p2)
              else pure acc3)
            acc2)
        acc)
    v1

/-- The combined entry point `evaluate_dollo_node_individual(reads,
individual, alpha)`.  The source returns the one-element tuple
`(dollo_evaluate_direct_level2(reads, individual, alpha),)` — its second
and third arguments are forwarded positionally, so level 2 receives the
individual in its `alpha` slot and alpha in its `individual` slot.  The
result models the tuple's only element; `none` models a raised
exception. -/
def evaluate_dollo_node_individual (reads : List ReadElement)
    (individual alpha : PyVal) : Option ℚ :=
  dollo_evaluate_direct_level2_dyn reads individual alpha

/-! ## Structural layer: crossover and mutation

Reference identity matters to the crossover claims, so individuals are
modelled as `PObj`: a tree value tagged with an object address.  A deep
copy is a fresh address carrying the same tree value; the caller supplies
fresh addresses through the `fresh` parameter (the source's `copy.deepcopy`
always yields objects distinct from every live object). -/

/-- A Python object reference: an address plus the tree value stored
there. -/
structure PObj where
  addr : Nat
  tree : DolloNode

mutual

/-- Modelled from the spec (§6 `is_equal`): structural equality of two
trees — same label, same binary signature and pairwise equal children in
order (`tree_is_equal` in the source). -/
def tree_is_equal : DolloNode → DolloNode → Bool
  | .mk l1 tag1 cs1, .mk l2 tag2 cs2 =>
    l1 == l2 && tag1 == tag2 && forest_is_equal cs1 cs2

/-- Pairwise `tree_is_equal` on ordered child lists. -/
def forest_is_equal : List DolloNode → List DolloNode → Bool
  | [], [] => true
  | a :: as, b :: bs => tree_is_equal a b && forest_is_equal as bs
  | _ :: _, [] => false
  | [], _ :: _ => false

end

/-- Python's `x[-1] == '+'` on a label (the source assumes labels are
nonempty strings; on the empty string Python would raise, here it is
`false`). -/
def endsWithPlus (s : String) : Bool :=
  s.data.getLast? == some '+'

/-- `set_consits_of_plus_lebels(list_of_sets)` of the source: flatten the
list of sets, keeping only the labels that end in `'+'` (Python's `set` is
modelled as a duplicate-free list). -/
def set_consits_of_plus_lebels (list_of_sets : List (List String)) : List String :=
  list_of_sets.foldl
    (fun ret s =>
      s.foldl
        (fun r x => if endsWithPlus x && !(r.contains x) then r ++ [x] else r)
        ret)
    []

/-- `sets_are_equal(set1, set2)` of the source: mutual inclusion. -/
def sets_are_equal (set1 set2 : List String) : Bool :=
  set1.all (fun x => set2.contains x) && set2.all (fun x => set1.contains x)

/-- Modelled from the spec (§3 Partition Map, §6 `get_partition`): the
collaborator method `tree_get_partition` — a mapping from each plus-labeled
node's label to the set of labels reachable in its subtree (the value is a
collection of label sets, as consumed by `set_consits_of_plus_lebels`).
Keys follow the pre-order of the plus nodes; a `dict` cannot hold duplicate
keys, and lookups here take the first entry (the two coincide on trees
whose plus labels are unique, the Dollo invariant). -/
def tree_get_partition (t : DolloNode) : List (String × List (List String)) :=
  (allNodes t).filterMap
    (fun n =>
      if endsWithPlus n.node_label then
        some (n.node_label, [(allNodes n).map DolloNode.node_label])
      else none)

/-- All nodes of the tree whose label equals `lab`, in pre-order: the
candidates of anytree's `search.find(tree, lambda node: node.node_label ==
lab)`, which returns the unique match, `None` when there is none, and
raises `CountError` when there are several. -/
def findNodes (t : DolloNode) (lab : String) : List DolloNode :=
  (allNodes t).filter (fun n => n.node_label == lab)

mutual

/-- The structural effect of the source's subtree exchange on one side:
detach the first child with label `lab` found along the pre-order descent
and append the subtree `s` in its parent's child list (anytree's
re-parenting removes the node from its old parent and appends to the new
parent's children). -/
def graft (lab : String) (s : DolloNode) : DolloNode → DolloNode
  | .mk l tag cs =>
    if cs.any (fun c => c.node_label == lab) then
      .mk l tag ((cs.eraseP (fun c => c.node_label == lab)) ++ [s])
    else
      .mk l tag (graftList lab s cs)

/-- `graft` mapped over a child list. -/
def graftList (lab : String) (s : DolloNode) : List DolloNode → List DolloNode
  | [] => []
  | c :: cs => graft lab s c :: graftList lab s cs

end

/-- The label loop of `dollo_crossover_exchange_subtrees`, translated
guard for guard.  `c1`, `c2` are the two deep copies, `part1`, `part2`
their partitions (computed once before the loop), `normalize` the
composition of the four collaborator normalization passes applied to each
re-attached subtree.  `none` models a raised exception: a matched label
with zero nodes (`AttributeError` on `None.tree_is_equal`) or several
nodes (anytree `CountError`), or a match at a copy's root, whose aliasing
re-parenting the value model cannot represent. -/
def subtreeSwapLoop (normalize : DolloNode → DolloNode)
    (part1 part2 : List (String × List (List String)))
    (c1 c2 : DolloNode) : List String → Option (Bool × DolloNode × DolloNode)
  | [] => some (false, c1, c2)
  | lab0 :: rest =>
    let lab := lab0 ++ "+"
    match part1.lookup lab with
    | none => subtreeSwapLoop normalize part1 part2 c1 c2 rest
    | some covered1 =>
      let set_covered1 := set_consits_of_plus_lebels covered1
      if set_covered1.length == 0 then subtreeSwapLoop normalize part1 part2 c1 c2 rest
      else
        match part2.lookup lab with
        | none => subtreeSwapLoop normalize part1 part2 c1 c2 rest
        | some covered2 =>
          let set_covered2 := set_consits_of_plus_lebels covered2
          if set_covered2.length == 0 then
            subtreeSwapLoop normalize part1 part2 c1 c2 rest
          else if !(sets_are_equal set_covered1 set_covered2) then
            subtreeSwapLoop normalize part1 part2 c1 c2 rest
          else
            match findNodes c1 lab, findNodes c2 lab with
            | [node1], [node2] =>
              if tree_is_equal node1 node2 then
                subtreeSwapLoop normalize part1 part2 c1 c2 rest
              else if c1.node_label == lab || c2.node_label == lab then none
              else
                some (true, graft lab (normalize node2) c1,
                  graft lab (normalize node1) c2)
            | _, _ => none

/-- `dollo_crossover_exchange_subtrees(labels, individual1, individual2)`.
On structurally equal trees it returns the two input objects themselves.
Otherwise both trees are deep-copied (fresh addresses `fresh`, `fresh+1`),
the partitions are computed, and the label loop runs.  The four
collaborator normalization passes (`tree_compact_vertical`,
`tree_compact_horizontal`, `tree_rearange_by_label`,
`tree_set_binary_tags`) are spec-underdetermined (§6: in-place structural
normalization of the receiver's subtree), so they are taken as
parameters. -/
def dollo_crossover_exchange_subtrees
    (compactV compactH rearrange : DolloNode → DolloNode)
    (setTags : List String → DolloNode → DolloNode)
    (labels : List String) (individual1 individual2 : PObj) (fresh : Nat) :
    Option (Bool × PObj × PObj) :=
  if tree_is_equal individual1.tree individual2.tree then
    some (false, individual1, individual2)
  else
    let c1 := individual1.tree
    let c2 := individual2.tree
    let part1 := tree_get_partition c1
    let part2 := tree_get_partition c2
    let normalize := fun s => setTags labels (rearrange (compactH (compactV s)))
    match subtreeSwapLoop normalize part1 part2 c1 c2 labels with
    | none => none
    | some (b, t1, t2) => some (b, ⟨fresh, t1⟩, ⟨fresh + 1, t2⟩)

/-- `dollo_crossover_exchange_edge(labels, individual1, individual2)`.  On
structurally equal trees it returns the two input objects themselves.
Otherwise it deep-copies both trees, draws a random label (`randIdx`
models `random.choice`; `random.choice` on an empty list raises) and a
coin `rand01`, decides plus vs minus by the size-weighted bias
`len(labels) / (1 + len(descendants))`, and in the plus case looks the
plus label up in both copies (`None.parent` raises when absent, anytree
`CountError` when duplicated).  It reports success unconditionally once
the label decision is made, without performing any structural swap. -/
def dollo_crossover_exchange_edge (labels : List String)
    (individual1 individual2 : PObj) (fresh : Nat) (randIdx : Nat)
    (rand01 : ℚ) : Option (Bool × PObj × PObj) :=
  if tree_is_equal individual1.tree individual2.tree then
    some (false, individual1, individual2)
  else
    let c1 := individual1.tree
    let c2 := individual2.tree
    match labels with
    | [] => none
    | _ :: _ =>
      let random_label := labels.getD (randIdx % labels.length) ""
      let label_is_plus : Bool :=
        rand01 < ((labels.length : ℚ) / (1 + ((descendants c1).length : ℚ)))
      if label_is_plus then
        let lab := random_label ++ "+"
        match findNodes c1 lab, findNodes c2 lab with
        | [_], [_] => some (true, ⟨fresh, c1⟩, ⟨fresh + 1, c2⟩)
        | _, _ => none
      else
        some (true, ⟨fresh, c1⟩, ⟨fresh + 1, c2⟩)

/-- `crossover_dollo_node_individuals(labels, individual1, individual2)`:
subtree exchange first; on failure, edge exchange; on failure of both,
two fresh deep copies of the originals.  `none` models an exception
propagating out of either strategy. -/
def crossover_dollo_node_individuals
    (compactV compactH rearrange : DolloNode → DolloNode)
    (setTags : List String → DolloNode → DolloNode)
    (labels : List String) (individual1 individual2 : PObj)
    (fresh randIdx : Nat) (rand01 : ℚ) : Option (PObj × PObj) :=
  match dollo_crossover_exchange_subtrees compactV compactH rearrange setTags
      labels individual1 individual2 fresh with
  | none => none
  | some (true, o1, o2) => some (o1, o2)
  | some (false, _, _) =>
    match dollo_crossover_exchange_edge labels individual1 individual2
        (fresh + 2) randIdx rand01 with
    | none => none
    | some (true, o1, o2) => some (o1, o2)
    | some (false, _, _) =>
      some (⟨fresh + 4, individual1.tree⟩, ⟨fresh + 5, individual2.tree⟩)

/-- `dollo_mutation_node_add(labels, k, individual)`: deep-copies the
individual, draws a random parent among the descendants (raises on a
descendant-free tree), a random label (raises on an empty label list) and
the plus/minus coin, builds the label string — and returns `(False, copy)`:
the mutation body is a stub that always reports failure. -/
def dollo_mutation_node_add (labels : List String) (_k : Nat)
    (individual : PObj) (fresh : Nat) (_randParent _randLabel : Nat)
    (_rand01 : ℚ) : Option (Bool × PObj) :=
  let c := individual.tree
  match descendants c, labels with
  | [], _ => none
  | _ :: _, [] => none
  | _ :: _, _ :: _ => some (false, ⟨fresh, c⟩)

/-- `mutate_dollo_node_individual(labels, k, individual)`: attempts only
the add-node mutation; on its failure returns a one-element tuple holding
a fresh deep copy of the input. -/
def mutate_dollo_node_individual (labels : List String) (k : Nat)
    (individual : PObj) (fresh : Nat) (randParent randLabel : Nat)
    (rand01 : ℚ) : Option PObj :=
  match dollo_mutation_node_add labels k individual fresh randParent
      randLabel rand01 with
  | none => none
  | some (true, individual_new) => some individual_new
  | some (false, _) => some ⟨fresh + 1, individual.tree⟩

/-! ## Store model of the evaluators

The evaluators build their perturbed reads with `BitArray(read.binary_read)`
— a fresh copy — and flip bits on that copy in place.  Whether the
caller-owned reads are mutated is a statement about the heap, so the
evaluators are re-run here over an explicit store of bit arrays:
`ReadElementRef` holds addresses, `BitArray(x)` allocates, `read2[i] =
False` writes.  The tree is kept as a value (the evaluators never mutate
it). -/

/-- A store of `BitArray` objects: contents per address, plus the next
fresh address. -/
structure Store where
  mem : Nat → List Bool
  next : Nat

/-- `BitArray(v)`: allocate a fresh object holding `v`. -/
def Store.alloc (st : Store) (v : List Bool) : Nat × Store :=
  (st.next, ⟨fun a => if a = st.next then v else st.mem a, st.next + 1⟩)

/-- In-place update of the object at address `a`. -/
def Store.write (st : Store) (a : Nat) (v : List Bool) : Store :=
  ⟨fun x => if x = a then v else st.mem x, st.next⟩

/-- A `ReadElement` whose bit arrays live in the store. -/
structure ReadElementRef where
  identifier : String
  binary_read : Nat
  unknown_read : Nat

/-- The value of a stored read. -/
def derefRead (st : Store) (re : ReadElementRef) : ReadElement :=
  ⟨re.identifier, st.mem re.binary_read, st.mem re.unknown_read⟩

/-- `dolo_closest_node_distance` on a stored read: the collaborator method
reads the current contents of the read's bit arrays. -/
def dolo_closest_node_distance_st (st : Store) (individual : DolloNode)
    (read : ReadElementRef) : DolloNode × Nat :=
  dolo_closest_node_distance individual (derefRead st read)

/-- The level-1 perturbation body over the store: `read2 =
BitArray(read.binary_read)` (fresh copy), `read2[i] = False` (in-place
write on the copy), `ReadElement("XXX2", read2, read.unknown_read)` (the
unknown mask is the very same object). -/
def perturbOne_st (st : Store) (read : ReadElementRef) (i : Nat) :
    ReadElementRef × Store :=
  let p := st.alloc (st.mem read.binary_read)
  let st2 := p.2.write p.1 ((p.2.mem p.1).set i false)
  (⟨"XXX2", p.1, read.unknown_read⟩, st2)

/-- The level-2 perturbation body over the store (two in-place writes on
the fresh copy). -/
def perturbTwo_st (st : Store) (read : ReadElementRef) (i j : Nat) :
    ReadElementRef × Store :=
  let p := st.alloc (st.mem read.binary_read)
  let st2 := p.2.write p.1 ((p.2.mem p.1).set i false)
  let st3 := st2.write p.1 ((st2.mem p.1).set j false)
  (⟨"XXX2", p.1, read.unknown_read⟩, st3)

/-- The level-3 perturbation body over the store (three in-place writes on
the fresh copy). -/
def perturbThree_st (st : Store) (read : ReadElementRef) (i j k : Nat) :
    ReadElementRef × Store :=
  let p := st.alloc (st.mem read.binary_read)
  let st2 := p.2.write p.1 ((p.2.mem p.1).set i false)
  let st3 := st2.write p.1 ((st2.mem p.1).set j false)
  let st4 := st3.write p.1 ((st3.mem p.1).set k false)
  (⟨"XXX2", p.1, read.unknown_read⟩, st4)

/-- `dollo_evaluate_direct_level0` over the store: reads distances, builds
nothing, writes nothing. -/
def dollo_evaluate_direct_level0_st (reads : List ReadElementRef) (_alpha : ℚ)
    (individual : DolloNode) (st : Store) : ℚ × Store :=
  (reads.foldl
    (fun acc read => acc + ((dolo_closest_node_distance_st st individual read).2 : ℚ))
    0, st)

/-- `dollo_evaluate_direct_level1` over the store. -/
def dollo_evaluate_direct_level1_st (reads : List ReadElementRef) (alpha : ℚ)
    (individual : DolloNode) (st : Store) : ℚ × Store :=
  reads.foldl
    (fun p read =>
      (pyRange 0 (p.2.mem read.binary_read).length).foldl
        (fun p2 i =>
          if (p2.2.mem read.binary_read).getD i false then
            let q := perturbOne_st p2.2 read i
            (p2.1 + ((dolo_closest_node_distance_st q.2 individual q.1).2 : ℚ) * alpha,
              q.2)
          else p2)
        p)
    (dollo_evaluate_direct_level0_st reads alpha individual st)

/-- `dollo_evaluate_direct_level2` over the store. -/
def dollo_evaluate_direct_level2_st (reads : List ReadElementRef) (alpha : ℚ)
    (individual : DolloNode) (st : Store) : ℚ × Store :=
  reads.foldl
    (fun p read =>
      (pyRange 0 (p.2.mem read.binary_read).length).foldl
        (fun p2 i =>
          (pyRange (i + 1) (p2.2.mem read.binary_read).length).foldl
            (fun p3 j =>
              if (p3.2.mem read.binary_read).getD i false
                  && (p3.2.mem read.binary_read).getD j false then
                let q := perturbTwo_st p3.2 read i j
                (p3.1 + ((dolo_closest_node_distance_st q.2 individual q.1).2 : ℚ)
                  * alpha * alpha, q.2)
              else p3)
            p2)
        p)
    (dollo_evaluate_direct_level1_st reads alpha individual st)

/-- `dollo_evaluate_direct_level3` over the store. -/
def dollo_evaluate_direct_level3_st (reads : List ReadElementRef) (alpha : ℚ)
    (individual : DolloNode) (st : Store) : ℚ × Store :=
  reads.foldl
    (fun p read =>
      (pyRange 0 (p.2.mem read.binary_read).length).foldl
        (fun p2 i =>
          (pyRange (i + 1) (p2.2.mem read.binary_read).length).foldl
            (fun p3 j =>
              (pyRange (j + 1) (p3.2.mem read.binary_read).length).foldl
                (fun p4 k =>
                  if (p4.2.mem read.binary_read).getD i false
                      && (p4.2.mem read.binary_read).getD j false
                      && (p4.2.mem read.binary_read).getD k false then
                    let q := perturbThree_st p4.2 read i j k
                    (p4.1 + ((dolo_closest_node_distance_st q.2 individual q.1).2 : ℚ)
                      * alpha * alpha, q.2)
                  else p4)
                p3)
            p2)
        p)
    (dollo_evaluate_direct_level2_st reads alpha individual st)

/-- The store `st'` extends `st`: no address live in `st` changed its
contents, and allocation only moved forward. -/
def storeExtends (st st' : Store) : Prop :=
  st.next ≤ st'.next ∧ ∀ a < st.next, st'.mem a = st.mem a

/-! ## Concrete fixtures used by witnesses and counterexamples -/

/-- A small tree: root `--` with a single `a+` child, over a two-label
alphabet. -/
def sampleTree : DolloNode :=
  .mk "--" [false, false] [.mk "a+" [true, false] []]

/-- A read with both bits observed and set. -/
def sampleRead : ReadElement :=
  ⟨"r1", [true, true], [false, false]⟩

/-- A tree whose only non-root node is a minus node (so its partition has
no plus entries). -/
def minusTree : DolloNode :=
  .mk "--" [false] [.mk "a-" [false] []]

/-- A bare root with no descendants. -/
def bareTree : DolloNode :=
  .mk "--" [false] []

/-- First parent for the subtree-exchange success scenario. -/
def subtreeTree1 : DolloNode :=
  .mk "--" [false, false] [.mk "a+" [true, false] [.mk "b+" [true, true] []]]

/-- Second parent for the subtree-exchange success scenario: the `a+`
subtree covers the same plus labels but is structurally different. -/
def subtreeTree2 : DolloNode :=
  .mk "--" [false, false]
    [.mk "c-" [false, false]
      [.mk "a+" [true, false] [.mk "b+" [true, true] [.mk "d-" [true, true] []]]]]

/-! ## C1 — the combined entry point -/

/-- C1: the claim states that `evaluate_dollo_node_individual(reads,
individual, alpha)` returns a one-element tuple holding
`dollo_evaluate_direct_level2(reads, alpha, individual)`.  The source
instead forwards its arguments positionally, so level 2 receives the tree
in its `alpha` slot and the number in its `individual` slot; on any
nonempty read list the call raises `AttributeError` (a float has no
`closest_node_in_tree`) instead of returning the level-2 value — here the
entry point evaluates to `none` at the failing input while the claimed
level-2 value exists (`3/2`). -/
theorem evaluate_entry_point_swaps_arguments :
    evaluate_dollo_node_individual [sampleRead] (PyVal.tree sampleTree)
        (PyVal.num (1/2)) = none
    ∧ dollo_evaluate_direct_level2 [sampleRead] (1/2) sampleTree = 3/2 := by
  refine ⟨rfl, ?_⟩
  have d00 : (dolo_closest_node_distance sampleTree sampleRead).2 = 1 := by decide
  have d01 : (dolo_closest_node_distance sampleTree (perturbOne sampleRead 0)).2 = 1 := by
    decide
  have d02 : (dolo_closest_node_distance sampleTree (perturbOne sampleRead 1)).2 = 0 := by
    decide
  have d03 : (dolo_closest_node_distance sampleTree (perturbTwo sampleRead 0 1)).2 = 0 := by
    decide
  have hb0 : sampleRead.binary_read.getD 0 false = true := by decide
  have hb1 : sampleRead.binary_read.getD 1 false = true := by decide
  have hlen : sampleRead.binary_read.length = 2 := by decide
  simp only [dollo_evaluate_direct_level2, dollo_evaluate_direct_level1,
    dollo_evaluate_direct_level0, hlen, pyRange, List.range', List.foldl,
    hb0, hb1, d00, d01, d02, d03, if_true, Bool.and_self]
  norm_num

/-! ## C8 — the mutation orchestrator -/

/-- C8 counterexample: with an empty label list the source's
`random.choice(labels)` raises `IndexError`, so
`mutate_dollo_node_individual` produces no tuple at all, refuting "for
every label list ... always returns a single-element tuple". -/
theorem mutate_orchestrator_raises_on_empty_labels :
    mutate_dollo_node_individual [] 2 ⟨0, minusTree⟩ 7 0 0 0 = none := by
  rfl

/-- C8 amended: for every nonempty label list and every individual with at
least one descendant (so both `random.choice` calls are well defined), the
add-node stub always reports failure with a fresh deep copy, and the
orchestrator therefore returns a single-element tuple holding a fresh deep
copy of the input individual, structurally unchanged. -/
theorem mutate_orchestrator_identity (labels : List String) (k : Nat)
    (individual : PObj) (fresh : Nat) (randParent randLabel : Nat)
    (rand01 : ℚ) (hl : labels ≠ []) (hd : descendants individual.tree ≠ []) :
    dollo_mutation_node_add labels k individual fresh randParent randLabel
        rand01 = some (false, ⟨fresh, individual.tree⟩)
    ∧ mutate_dollo_node_individual labels k individual fresh randParent
        randLabel rand01 = some ⟨fresh + 1, individual.tree⟩ := by
  have hadd : dollo_mutation_node_add labels k individual fresh randParent
      randLabel rand01 = some (false, ⟨fresh, individual.tree⟩) := by
    rcases hds : descendants individual.tree with _ | ⟨d, ds⟩
    · exact absurd hds hd
    · rcases hls : labels with _ | ⟨a, as⟩
      · exact absurd hls hl
      · simp only [dollo_mutation_node_add, hds, hls]
  refine ⟨hadd, ?_⟩
  unfold mutate_dollo_node_individual
  rw [hadd]

/-- Witness for the amended C8 at a concrete input. -/
theorem mutate_orchestrator_identity_witness :
    dollo_mutation_node_add ["a"] 2 ⟨0, minusTree⟩ 7 0 0 0
        = some (false, ⟨7, minusTree⟩)
    ∧ mutate_dollo_node_individual ["a"] 2 ⟨0, minusTree⟩ 7 0 0 0
        = some ⟨8, minusTree⟩ :=
  mutate_orchestrator_identity ["a"] 2 ⟨0, minusTree⟩ 7 0 0 0
    (by simp)
    (by rw [show descendants minusTree = [.mk "a-" [false] []] from rfl]; simp)

/-! ## C2, C3 — crossover copy discipline on the equal-trees path -/

/-- C2 counterexample: on two structurally equal trees,
`dollo_crossover_exchange_subtrees` returns the two input objects
themselves — the outputs carry the inputs' addresses `0` and `1`, not
fresh copies — refuting "never reference-identical to the inputs on every
path". -/
theorem subtree_crossover_returns_inputs_on_equal_trees :
    dollo_crossover_exchange_subtrees id id id (fun _ => id) ["a"]
        ⟨0, sampleTree⟩ ⟨1, sampleTree⟩ 5
      = some (false, ⟨0, sampleTree⟩, ⟨1, sampleTree⟩) := by
  rfl

/-- C2 amended: on structurally unequal inputs both crossover strategies
return only freshly copied objects (addresses from the allocator, distinct
from both inputs), on success and failure paths alike; on the
structurally-equal path the source returns the original objects
themselves. -/
theorem crossover_outputs_fresh_on_unequal_trees
    (compactV compactH rearrange : DolloNode → DolloNode)
    (setTags : List String → DolloNode → DolloNode) (labels : List String)
    (i1 i2 : PObj) (fresh randIdx : Nat) (rand01 : ℚ)
    (hne : tree_is_equal i1.tree i2.tree = false)
    (ha1 : i1.addr < fresh) (ha2 : i2.addr < fresh) :
    (∀ b o1 o2,
      dollo_crossover_exchange_subtrees compactV compactH rearrange setTags
          labels i1 i2 fresh = some (b, o1, o2) →
        o1.addr ≠ i1.addr ∧ o1.addr ≠ i2.addr ∧ o2.addr ≠ i1.addr
          ∧ o2.addr ≠ i2.addr)
    ∧ (∀ b o1 o2,
      dollo_crossover_exchange_edge labels i1 i2 fresh randIdx rand01
          = some (b, o1, o2) →
        o1.addr ≠ i1.addr ∧ o1.addr ≠ i2.addr ∧ o2.addr ≠ i1.addr
          ∧ o2.addr ≠ i2.addr) := by
  constructor
  · intro b o1 o2 h
    simp only [dollo_crossover_exchange_subtrees, hne, Bool.false_eq_true,
      if_false] at h
    rcases hloop : subtreeSwapLoop
        (fun s => setTags labels (rearrange (compactH (compactV s))))
        (tree_get_partition i1.tree) (tree_get_partition i2.tree)
        i1.tree i2.tree labels with _ | ⟨b', t1, t2⟩
    · rw [hloop] at h; exact absurd h (by simp)
    · rw [hloop] at h
      simp only [Option.some.injEq, Prod.mk.injEq] at h
      obtain ⟨-, h1, h2⟩ := h
      rw [← h1, ← h2]
      refine ⟨?_, ?_, ?_, ?_⟩ <;> simp <;> omega
  · intro b o1 o2 h
    simp only [dollo_crossover_exchange_edge, hne, Bool.false_eq_true,
      if_false] at h
    rcases labels with _ | ⟨a, as⟩
    · exact absurd h (by simp)
    · simp only at h
      split at h
      · split at h
        · simp only [Option.some.injEq, Prod.mk.injEq] at h
          obtain ⟨-, h1, h2⟩ := h
          rw [← h1, ← h2]
          refine ⟨?_, ?_, ?_, ?_⟩ <;> simp <;> omega
        · exact absurd h (by simp)
      · simp only [Option.some.injEq, Prod.mk.injEq] at h
        obtain ⟨-, h1, h2⟩ := h
        rw [← h1, ← h2]
        refine ⟨?_, ?_, ?_, ?_⟩ <;> simp <;> omega

/-- Witness for the amended C2 at concrete unequal trees. -/
theorem crossover_outputs_fresh_on_unequal_trees_witness :
    (∀ b o1 o2,
      dollo_crossover_exchange_subtrees id id id (fun _ => id)
          ["a", "b"] ⟨0, subtreeTree1⟩ ⟨1, subtreeTree2⟩ 5 = some (b, o1, o2) →
        o1.addr ≠ 0 ∧ o1.addr ≠ 1 ∧ o2.addr ≠ 0 ∧ o2.addr ≠ 1)
    ∧ (∀ b o1 o2,
      dollo_crossover_exchange_edge ["a", "b"] ⟨0, subtreeTree1⟩
          ⟨1, subtreeTree2⟩ 5 0 0 = some (b, o1, o2) →
        o1.addr ≠ 0 ∧ o1.addr ≠ 1 ∧ o2.addr ≠ 0 ∧ o2.addr ≠ 1) :=
  crossover_outputs_fresh_on_unequal_trees id id id (fun _ => id)
    ["a", "b"] ⟨0, subtreeTree1⟩ ⟨1, subtreeTree2⟩ 5 0 0
    (by decide) (by decide) (by decide)

/-- C3 counterexample: on two structurally equal trees,
`dollo_crossover_exchange_edge` returns `success = False` with the two
input objects themselves (addresses `3` and `4`), not deep copies,
refuting "returned as deep copies unchanged". -/
theorem edge_crossover_returns_inputs_on_equal_trees :
    dollo_crossover_exchange_edge ["a"] ⟨3, sampleTree⟩ ⟨4, sampleTree⟩ 9 0
        (1/3)
      = some (false, ⟨3, sampleTree⟩, ⟨4, sampleTree⟩) := by
  rfl

/-- C3 amended: on structurally equal trees both crossover strategies fail
immediately with `success = False` and return the two original input
objects themselves, unchanged — aliased rather than deep-copied (and hence
trivially structurally equal to the originals). -/
theorem crossover_equal_trees_fail_with_original_objects
    (compactV compactH rearrange : DolloNode → DolloNode)
    (setTags : List String → DolloNode → DolloNode) (labels : List String)
    (i1 i2 : PObj) (fresh randIdx : Nat) (rand01 : ℚ)
    (heq : tree_is_equal i1.tree i2.tree = true) :
    dollo_crossover_exchange_subtrees compactV compactH rearrange setTags
        labels i1 i2 fresh = some (false, i1, i2)
    ∧ dollo_crossover_exchange_edge labels i1 i2 fresh randIdx rand01
        = some (false, i1, i2) := by
  constructor
  · simp only [dollo_crossover_exchange_subtrees, heq, if_true]
  · simp only [dollo_crossover_exchange_edge, heq, if_true]

/-- Witness for the amended C3 at a concrete pair of equal trees. -/
theorem crossover_equal_trees_fail_with_original_objects_witness :
    dollo_crossover_exchange_subtrees id id id (fun _ => id) ["a"]
        ⟨3, sampleTree⟩ ⟨4, sampleTree⟩ 9 = some (false, ⟨3, sampleTree⟩, ⟨4, sampleTree⟩)
    ∧ dollo_crossover_exchange_edge ["a"] ⟨3, sampleTree⟩ ⟨4, sampleTree⟩ 9 1
        (1/5) = some (false, ⟨3, sampleTree⟩, ⟨4, sampleTree⟩) :=
  crossover_equal_trees_fail_with_original_objects id id id (fun _ => id)
    ["a"] ⟨3, sampleTree⟩ ⟨4, sampleTree⟩ 9 1 (1/5) (by decide)

/-! ## C7 — the crossover orchestrator -/

/-- C7 counterexample: with parents `minusTree` (one `a-` child) and
`bareTree`, label list `["a"]` and a coin that selects the plus variant,
subtree exchange finds no qualifying label, and edge exchange then raises
(`search.find` yields `None` for the absent `a+`, and `None.parent` is an
`AttributeError`), so the orchestrator produces no offspring at all —
refuting "never fails to produce offspring". -/
theorem crossover_orchestrator_raises :
    crossover_dollo_node_individuals id id id (fun _ => id) ["a"]
        ⟨0, minusTree⟩ ⟨1, bareTree⟩ 10 0 0 = none := by
  have hsub : dollo_crossover_exchange_subtrees id id id (fun _ => id) ["a"]
      ⟨0, minusTree⟩ ⟨1, bareTree⟩ 10
      = some (false, ⟨10, minusTree⟩, ⟨11, bareTree⟩) := by rfl
  have hedge : dollo_crossover_exchange_edge ["a"] ⟨0, minusTree⟩
      ⟨1, bareTree⟩ 12 0 0 = none := by
    simp only [dollo_crossover_exchange_edge]
    rw [if_neg (by decide), if_pos]
    · rfl
    · apply decide_eq_true
      rw [show (descendants minusTree).length = 1 from by decide]
      norm_num
  simp only [crossover_dollo_node_individuals, hsub, hedge]

/-- C7 amended: the orchestrator returns the subtree-exchange offspring if
that strategy succeeds, otherwise the edge-exchange offspring if that
succeeds, otherwise two independent deep copies of the parents — provided
neither strategy raises; an exception in either strategy (for instance
edge exchange's plus-branch lookup of an absent label) propagates, and
then no offspring are produced. -/
theorem crossover_orchestrator_cascade
    (compactV compactH rearrange : DolloNode → DolloNode)
    (setTags : List String → DolloNode → DolloNode) (labels : List String)
    (i1 i2 : PObj) (fresh randIdx : Nat) (rand01 : ℚ) :
    (∀ o1 o2,
      dollo_crossover_exchange_subtrees compactV compactH rearrange setTags
          labels i1 i2 fresh = some (true, o1, o2) →
        crossover_dollo_node_individuals compactV compactH rearrange setTags
          labels i1 i2 fresh randIdx rand01 = some (o1, o2))
    ∧ (∀ o1 o2 p1 p2,
      dollo_crossover_exchange_subtrees compactV compactH rearrange setTags
          labels i1 i2 fresh = some (false, o1, o2) →
      dollo_crossover_exchange_edge labels i1 i2 (fresh + 2) randIdx rand01
          = some (true, p1, p2) →
        crossover_dollo_node_individuals compactV compactH rearrange setTags
          labels i1 i2 fresh randIdx rand01 = some (p1, p2))
    ∧ (∀ o1 o2 p1 p2,
      dollo_crossover_exchange_subtrees compactV compactH rearrange setTags
          labels i1 i2 fresh = some (false, o1, o2) →
      dollo_crossover_exchange_edge labels i1 i2 (fresh + 2) randIdx rand01
          = some (false, p1, p2) →
        crossover_dollo_node_individuals compactV compactH rearrange setTags
          labels i1 i2 fresh randIdx rand01
          = some (⟨fresh + 4, i1.tree⟩, ⟨fresh + 5, i2.tree⟩))
    ∧ (dollo_crossover_exchange_subtrees compactV compactH rearrange setTags
          labels i1 i2 fresh = none →
        crossover_dollo_node_individuals compactV compactH rearrange setTags
          labels i1 i2 fresh randIdx rand01 = none)
    ∧ (∀ o1 o2,
      dollo_crossover_exchange_subtrees compactV compactH rearrange setTags
          labels i1 i2 fresh = some (false, o1, o2) →
      dollo_crossover_exchange_edge labels i1 i2 (fresh + 2) randIdx rand01
          = none →
        crossover_dollo_node_individuals compactV compactH rearrange setTags
          labels i1 i2 fresh randIdx rand01 = none) := by
  refine ⟨?_, ?_, ?_, ?_, ?_⟩
  · intro o1 o2 hs
    simp only [crossover_dollo_node_individuals, hs]
  · intro o1 o2 p1 p2 hs he
    simp only [crossover_dollo_node_individuals, hs, he]
  · intro o1 o2 p1 p2 hs he
    simp only [crossover_dollo_node_individuals, hs, he]
  · intro hs
    simp only [crossover_dollo_node_individuals, hs]
  · intro o1 o2 hs he
    simp only [crossover_dollo_node_individuals, hs, he]

/-- Witness for the amended C7: with equal parents both strategies report
failure without raising, and the orchestrator returns two fresh deep
copies of the parents. -/
theorem crossover_orchestrator_cascade_witness :
    crossover_dollo_node_individuals id id id (fun _ => id) ["a"]
        ⟨0, sampleTree⟩ ⟨1, sampleTree⟩ 10 0 0
      = some (⟨14, sampleTree⟩, ⟨15, sampleTree⟩) :=
  (crossover_orchestrator_cascade id id id (fun _ => id) ["a"]
      ⟨0, sampleTree⟩ ⟨1, sampleTree⟩ 10 0 0).2.2.1
    ⟨0, sampleTree⟩ ⟨1, sampleTree⟩ ⟨0, sampleTree⟩ ⟨1, sampleTree⟩ rfl rfl

/-! ## C4 — each evaluation level dominates the previous one -/

/-- A fold whose every step only grows the accumulator dominates its start
value. -/
lemma le_foldl_of_le_step {α : Type} (step : ℚ → α → ℚ)
    (h : ∀ acc x, acc ≤ step acc x) :
    ∀ (l : List α) (init : ℚ), init ≤ l.foldl step init := by
  intro l
  induction l with
  | nil => intro init; simp
  | cons x xs ih =>
    intro init
    rw [List.foldl_cons]
    exact le_trans (h init x) (ih (step init x))

/-- C4: for every read list, tree and `alpha ≥ 0`, each evaluation level
dominates the previous one — every perturbation loop only adds terms
`distance · alpha^e` with a `ℕ`-valued distance (so every closest-node
distance is non-negative by construction) and a non-negative weight. -/
theorem evaluation_levels_monotone (reads : List ReadElement) (alpha : ℚ)
    (individual : DolloNode) (halpha : 0 ≤ alpha) :
    dollo_evaluate_direct_level0 reads alpha individual
        ≤ dollo_evaluate_direct_level1 reads alpha individual
    ∧ dollo_evaluate_direct_level1 reads alpha individual
        ≤ dollo_evaluate_direct_level2 reads alpha individual
    ∧ dollo_evaluate_direct_level2 reads alpha individual
        ≤ dollo_evaluate_direct_level3 reads alpha individual := by
  refine ⟨?_, ?_, ?_⟩
  · unfold dollo_evaluate_direct_level1
    refine le_foldl_of_le_step _ (fun acc read => ?_) reads _
    refine le_foldl_of_le_step _ (fun acc2 i => ?_) _ acc
    cases hbit : read.binary_read.getD i false
    · simp [hbit]
    · have hd : (0 : ℚ) ≤ ((dolo_closest_node_distance individual
          (perturbOne read i)).2 : ℚ) * alpha :=
        mul_nonneg (Nat.cast_nonneg _) halpha
      simp only [hbit, if_true]
      exact le_add_of_nonneg_right hd
  · unfold dollo_evaluate_direct_level2
    refine le_foldl_of_le_step _ (fun acc read => ?_) reads _
    refine le_foldl_of_le_step _ (fun acc2 i => ?_) _ acc
    refine le_foldl_of_le_step _ (fun acc3 j => ?_) _ acc2
    cases hbit : read.binary_read.getD i false && read.binary_read.getD j false
    · simp [hbit]
    · have hd : (0 : ℚ) ≤ ((dolo_closest_node_distance individual
          (perturbTwo read i j)).2 : ℚ) * alpha * alpha :=
        mul_nonneg (mul_nonneg (Nat.cast_nonneg _) halpha) halpha
      simp only [hbit, if_true]
      exact le_add_of_nonneg_right hd
  · unfold dollo_evaluate_direct_level3
    refine le_foldl_of_le_step _ (fun acc read => ?_) reads _
    refine le_foldl_of_le_step _ (fun acc2 i => ?_) _ acc
    refine le_foldl_of_le_step _ (fun acc3 j => ?_) _ acc2
    refine le_foldl_of_le_step _ (fun acc4 k => ?_) _ acc3
    cases hbit : read.binary_read.getD i false && read.binary_read.getD j false
        && read.binary_read.getD k false
    · simp [hbit]
    · have hd : (0 : ℚ) ≤ ((dolo_closest_node_distance individual
          (perturbThree read i j k)).2 : ℚ) * alpha * alpha :=
        mul_nonneg (mul_nonneg (Nat.cast_nonneg _) halpha) halpha
      simp only [hbit, if_true]
      exact le_add_of_nonneg_right hd

/-- Witness for C4 at a concrete read, weight and tree. -/
theorem evaluation_levels_monotone_witness :
    dollo_evaluate_direct_level0 [sampleRead] (1/2) sampleTree
        ≤ dollo_evaluate_direct_level1 [sampleRead] (1/2) sampleTree
    ∧ dollo_evaluate_direct_level1 [sampleRead] (1/2) sampleTree
        ≤ dollo_evaluate_direct_level2 [sampleRead] (1/2) sampleTree
    ∧ dollo_evaluate_direct_level2 [sampleRead] (1/2) sampleTree
        ≤ dollo_evaluate_direct_level3 [sampleRead] (1/2) sampleTree :=
  evaluation_levels_monotone [sampleRead] (1/2) sampleTree (by norm_num)

/-! ## C5 — level 3 is level 2 plus the alpha-squared triple terms -/

/-- A fold that only adds `g x` per element is the start value plus the sum
of the mapped list. -/
lemma foldl_add_eq_add_sum {α : Type} (g : α → ℚ) :
    ∀ (l : List α) (init : ℚ),
      l.foldl (fun a x => a + g x) init = init + (l.map g).sum := by
  intro l
  induction l with
  | nil => intro init; simp
  | cons x xs ih =>
    intro init
    rw [List.foldl_cons, ih (init + g x)]
    simp only [List.map_cons, List.sum_cons]
    ring

/-- A guarded additive fold is the start value plus the sum of the guarded
terms. -/
lemma foldl_if_add_eq_add_sum {α : Type} (c : α → Bool) (g : α → ℚ) :
    ∀ (l : List α) (init : ℚ),
      l.foldl (fun a x => if c x then a + g x else a) init
        = init + (l.map (fun x => if c x then g x else 0)).sum := by
  intro l init
  have hfun : (fun (a : ℚ) x => if c x then a + g x else a)
      = fun (a : ℚ) x => a + (if c x then g x else 0) := by
    funext a x
    by_cases h : c x = true <;> simp [h]
  rw [hfun, foldl_add_eq_add_sum]

/-- The sum of `f` over Python's `range(a, b)` is the `Finset.Ico a b`
sum. -/
lemma listSum_pyRange (f : Nat → ℚ) (a b : Nat) :
    ((pyRange a b).map f).sum = ∑ i ∈ Finset.Ico a b, f i := by
  have aux : ∀ (n a : Nat),
      ((List.range' a n).map f).sum = ∑ i ∈ Finset.Ico a (a + n), f i := by
    intro n
    induction n with
    | zero => intro a; simp
    | succ m ih =>
      intro a
      rw [List.range'_succ, List.map_cons, List.sum_cons, ih (a + 1),
        show a + 1 + m = a + (m + 1) from by omega,
        Finset.sum_eq_sum_Ico_succ_bot (by omega : a < a + (m + 1))]
  unfold pyRange
  rcases le_or_lt a b with h | h
  · have h2 := aux (b - a) a
    rw [show a + (b - a) = b from by omega] at h2
    exact h2
  · rw [show b - a = 0 from by omega]
    rw [Finset.Ico_eq_empty (by omega)]
    simp [List.range']

/-- Restricting a `range` sum by a strict lower bound gives an `Ico`
sum. -/
lemma sum_range_if_lt (n a : Nat) (H : Nat → ℚ) :
    ∑ j ∈ Finset.range n, (if a < j then H j else 0)
      = ∑ j ∈ Finset.Ico (a + 1) n, H j := by
  rw [← Finset.sum_filter]
  congr 1
  ext x
  simp only [Finset.mem_filter, Finset.mem_range, Finset.mem_Ico]
  omega

/-- The index triples `i < j < k` below `n`: the unordered triples of
distinct positions, each listed once in increasing order. -/
def tripleSet (n : Nat) : Finset (Nat × Nat × Nat) :=
  ((Finset.range n) ×ˢ (Finset.range n) ×ˢ (Finset.range n)).filter
    (fun p => p.1 < p.2.1 ∧ p.2.1 < p.2.2)

/-- Nested `Ico` sums over increasing indices equal one sum over
`tripleSet`. -/
lemma sum_Ico_triple (n : Nat) (f : Nat → Nat → Nat → ℚ) :
    ∑ i ∈ Finset.Ico 0 n, ∑ j ∈ Finset.Ico (i + 1) n,
        ∑ k ∈ Finset.Ico (j + 1) n, f i j k
      = ∑ p ∈ tripleSet n, f p.1 p.2.1 p.2.2 := by
  rw [tripleSet, Finset.sum_filter, Finset.sum_product, ← Finset.range_eq_Ico]
  refine Finset.sum_congr rfl (fun i _ => ?_)
  rw [Finset.sum_product]
  rw [show (∑ j ∈ Finset.range n, ∑ k ∈ Finset.range n,
      if i < j ∧ j < k then f i j k else 0)
      = ∑ j ∈ Finset.range n, (if i < j then
          (∑ k ∈ Finset.range n, if j < k then f i j k else 0) else 0) from
    Finset.sum_congr rfl (fun j _ => by by_cases h : i < j <;> simp [h])]
  rw [sum_range_if_lt]
  refine Finset.sum_congr rfl (fun j _ => ?_)
  rw [sum_range_if_lt]

/-- The total weight the level-3 loop adds for one read: over every index
triple `i < j < k` with all three bits set, the closest-node distance of
the read with those bits flipped, times `alpha * alpha`. -/
def tripleContribution (individual : DolloNode) (alpha : ℚ)
    (read : ReadElement) : ℚ :=
  ∑ p ∈ tripleSet read.binary_read.length,
    if read.binary_read.getD p.1 false && read.binary_read.getD p.2.1 false
        && read.binary_read.getD p.2.2 false then
      ((dolo_closest_node_distance individual
        (perturbThree read p.1 p.2.1 p.2.2)).2 : ℚ) * alpha * alpha
    else 0

/-- C5: `dollo_evaluate_direct_level3` equals
`dollo_evaluate_direct_level2` plus, for each read and each unordered
triple of distinct set-bit positions, the closest-node distance of the
read with the three bits flipped to 0, weighted by `alpha * alpha`
(the square, not the cube). -/
theorem level3_extends_level2_by_alpha_squared_triples
    (reads : List ReadElement) (alpha : ℚ) (individual : DolloNode) :
    dollo_evaluate_direct_level3 reads alpha individual
      = dollo_evaluate_direct_level2 reads alpha individual
        + (reads.map (tripleContribution individual alpha)).sum := by
  unfold dollo_evaluate_direct_level3
  simp only [foldl_if_add_eq_add_sum, foldl_add_eq_add_sum]
  congr 1
  refine congrArg List.sum (congrArg (fun F => List.map F reads) ?_)
  funext read
  unfold tripleContribution
  simp only [listSum_pyRange]
  exact sum_Ico_triple read.binary_read.length _

/-! ## C9 — the evaluators never mutate caller-owned reads -/

/-- `storeExtends` is reflexive. -/
lemma storeExtends_refl (st : Store) : storeExtends st st :=
  ⟨le_refl _, fun _ _ => rfl⟩

/-- `storeExtends` is transitive. -/
lemma storeExtends_trans {s1 s2 s3 : Store} (h12 : storeExtends s1 s2)
    (h23 : storeExtends s2 s3) : storeExtends s1 s3 :=
  ⟨le_trans h12.1 h23.1,
   fun a ha => (h23.2 a (lt_of_lt_of_le ha h12.1)).trans (h12.2 a ha)⟩

/-- The level-1 perturbation body allocates a fresh copy and writes only to
it: every address live before is untouched. -/
lemma perturbOne_st_extends (st : Store) (read : ReadElementRef) (i : Nat) :
    storeExtends st (perturbOne_st st read i).2 := by
  refine ⟨?_, fun a ha => ?_⟩
  · exact Nat.le_succ _
  · simp only [perturbOne_st, Store.alloc, Store.write]
    rw [if_neg (by omega), if_neg (by omega)]

/-- Level-2 perturbation body: same frame property. -/
lemma perturbTwo_st_extends (st : Store) (read : ReadElementRef) (i j : Nat) :
    storeExtends st (perturbTwo_st st read i j).2 := by
  refine ⟨?_, fun a ha => ?_⟩
  · exact Nat.le_succ _
  · simp only [perturbTwo_st, Store.alloc, Store.write]
    rw [if_neg (by omega), if_neg (by omega), if_neg (by omega)]

/-- Level-3 perturbation body: same frame property. -/
lemma perturbThree_st_extends (st : Store) (read : ReadElementRef)
    (i j k : Nat) : storeExtends st (perturbThree_st st read i j k).2 := by
  refine ⟨?_, fun a ha => ?_⟩
  · exact Nat.le_succ _
  · simp only [perturbThree_st, Store.alloc, Store.write]
    rw [if_neg (by omega), if_neg (by omega), if_neg (by omega),
      if_neg (by omega)]

/-- A fold whose every step extends the store extends the store. -/
lemma storeExtends_foldl {α : Type} (step : (ℚ × Store) → α → (ℚ × Store))
    (hstep : ∀ p x, storeExtends p.2 (step p x).2) :
    ∀ (l : List α) (p : ℚ × Store), storeExtends p.2 (l.foldl step p).2 := by
  intro l
  induction l with
  | nil => intro p; exact storeExtends_refl _
  | cons x xs ih =>
    intro p
    exact storeExtends_trans (hstep p x) (ih (step p x))

/-- Level 0 writes nothing. -/
lemma level0_st_extends (reads : List ReadElementRef) (alpha : ℚ)
    (individual : DolloNode) (st : Store) :
    storeExtends st (dollo_evaluate_direct_level0_st reads alpha individual st).2 :=
  storeExtends_refl st

/-- Level 1 only allocates fresh perturbation copies. -/
lemma level1_st_extends (reads : List ReadElementRef) (alpha : ℚ)
    (individual : DolloNode) (st : Store) :
    storeExtends st (dollo_evaluate_direct_level1_st reads alpha individual st).2 := by
  unfold dollo_evaluate_direct_level1_st
  show storeExtends
    (dollo_evaluate_direct_level0_st reads alpha individual st).2 _
  refine storeExtends_foldl _ (fun p read => ?_) reads _
  refine storeExtends_foldl _ (fun p2 i => ?_) _ p
  dsimp only
  split
  · exact perturbOne_st_extends p2.2 read i
  · exact storeExtends_refl _

/-- Level 2 only allocates fresh perturbation copies. -/
lemma level2_st_extends (reads : List ReadElementRef) (alpha : ℚ)
    (individual : DolloNode) (st : Store) :
    storeExtends st (dollo_evaluate_direct_level2_st reads alpha individual st).2 := by
  unfold dollo_evaluate_direct_level2_st
  refine storeExtends_trans (level1_st_extends reads alpha individual st) ?_
  refine storeExtends_foldl _ (fun p read => ?_) reads _
  refine storeExtends_foldl _ (fun p2 i => ?_) _ p
  refine storeExtends_foldl _ (fun p3 j => ?_) _ p2
  dsimp only
  split
  · exact perturbTwo_st_extends p3.2 read i j
  · exact storeExtends_refl _

/-- Level 3 only allocates fresh perturbation copies. -/
lemma level3_st_extends (reads : List ReadElementRef) (alpha : ℚ)
    (individual : DolloNode) (st : Store) :
    storeExtends st (dollo_evaluate_direct_level3_st reads alpha individual st).2 := by
  unfold dollo_evaluate_direct_level3_st
  refine storeExtends_trans (level2_st_extends reads alpha individual st) ?_
  refine storeExtends_foldl _ (fun p read => ?_) reads _
  refine storeExtends_foldl _ (fun p2 i => ?_) _ p
  refine storeExtends_foldl _ (fun p3 j => ?_) _ p2
  refine storeExtends_foldl _ (fun p4 k => ?_) _ p3
  dsimp only
  split
  · exact perturbThree_st_extends p4.2 read i j k
  · exact storeExtends_refl _

/-- C9: evaluating at any level 0-3 leaves every caller-owned read
unchanged in the store — each perturbed read is built on a freshly
allocated copy of the read bits, and neither the binary vector nor the
unknown mask of any input read is written in place. -/
theorem evaluators_preserve_caller_reads (reads : List ReadElementRef)
    (alpha : ℚ) (individual : DolloNode) (st : Store) (r : ReadElementRef)
    (_hr : r ∈ reads) (hb : r.binary_read < st.next)
    (hu : r.unknown_read < st.next) :
    ((dollo_evaluate_direct_level0_st reads alpha individual st).2.mem
          r.binary_read = st.mem r.binary_read
      ∧ (dollo_evaluate_direct_level0_st reads alpha individual st).2.mem
          r.unknown_read = st.mem r.unknown_read)
    ∧ ((dollo_evaluate_direct_level1_st reads alpha individual st).2.mem
          r.binary_read = st.mem r.binary_read
      ∧ (dollo_evaluate_direct_level1_st reads alpha individual st).2.mem
          r.unknown_read = st.mem r.unknown_read)
    ∧ ((dollo_evaluate_direct_level2_st reads alpha individual st).2.mem
          r.binary_read = st.mem r.binary_read
      ∧ (dollo_evaluate_direct_level2_st reads alpha individual st).2.mem
          r.unknown_read = st.mem r.unknown_read)
    ∧ ((dollo_evaluate_direct_level3_st reads alpha individual st).2.mem
          r.binary_read = st.mem r.binary_read
      ∧ (dollo_evaluate_direct_level3_st reads alpha individual st).2.mem
          r.unknown_read = st.mem r.unknown_read) :=
  ⟨⟨(level0_st_extends reads alpha individual st).2 _ hb,
    (level0_st_extends reads alpha individual st).2 _ hu⟩,
   ⟨(level1_st_extends reads alpha individual st).2 _ hb,
    (level1_st_extends reads alpha individual st).2 _ hu⟩,
   ⟨(level2_st_extends reads alpha individual st).2 _ hb,
    (level2_st_extends reads alpha individual st).2 _ hu⟩,
   ⟨(level3_st_extends reads alpha individual st).2 _ hb,
    (level3_st_extends reads alpha individual st).2 _ hu⟩⟩

/-- A two-object store holding one read's bit arrays. -/
def sampleStore : Store :=
  ⟨fun _ => [true, true], 2⟩

/-- A stored read whose binary vector and unknown mask live at addresses 0
and 1 of `sampleStore`. -/
def sampleReadRef : ReadElementRef :=
  ⟨"r1", 0, 1⟩

/-- Witness for C9 at a concrete store and read. -/
theorem evaluators_preserve_caller_reads_witness :
    ((dollo_evaluate_direct_level0_st [sampleReadRef] (1/2) sampleTree
          sampleStore).2.mem sampleReadRef.binary_read
        = sampleStore.mem sampleReadRef.binary_read
      ∧ (dollo_evaluate_direct_level0_st [sampleReadRef] (1/2) sampleTree
          sampleStore).2.mem sampleReadRef.unknown_read
        = sampleStore.mem sampleReadRef.unknown_read)
    ∧ ((dollo_evaluate_direct_level1_st [sampleReadRef] (1/2) sampleTree
          sampleStore).2.mem sampleReadRef.binary_read
        = sampleStore.mem sampleReadRef.binary_read
      ∧ (dollo_evaluate_direct_level1_st [sampleReadRef] (1/2) sampleTree
          sampleStore).2.mem sampleReadRef.unknown_read
        = sampleStore.mem sampleReadRef.unknown_read)
    ∧ ((dollo_evaluate_direct_level2_st [sampleReadRef] (1/2) sampleTree
          sampleStore).2.mem sampleReadRef.binary_read
        = sampleStore.mem sampleReadRef.binary_read
      ∧ (dollo_evaluate_direct_level2_st [sampleReadRef] (1/2) sampleTree
          sampleStore).2.mem sampleReadRef.unknown_read
        = sampleStore.mem sampleReadRef.unknown_read)
    ∧ ((dollo_evaluate_direct_level3_st [sampleReadRef] (1/2) sampleTree
          sampleStore).2.mem sampleReadRef.binary_read
        = sampleStore.mem sampleReadRef.binary_read
      ∧ (dollo_evaluate_direct_level3_st [sampleReadRef] (1/2) sampleTree
          sampleStore).2.mem sampleReadRef.unknown_read
        = sampleStore.mem sampleReadRef.unknown_read) :=
  evaluators_preserve_caller_reads [sampleReadRef] (1/2) sampleTree
    sampleStore sampleReadRef (by simp) (by decide) (by decide)

/-! ## C10 — perturbed reads: identifier and shared unknown mask -/

/-- C10: every perturbed read the level-1/2/3 bodies construct carries the
constant identifier `"XXX2"` and holds the very address of the source
read's unknown mask (the mask object is shared, not copied); consequently
the closest-node distance of a perturbed read is computed against the
source read's original unknown positions, whatever bits were flipped. -/
theorem perturbed_reads_identifier_and_shared_mask (st : Store)
    (read : ReadElementRef) (i j k : Nat) (individual : DolloNode)
    (hu : read.unknown_read < st.next) :
    (perturbOne_st st read i).1.identifier = "XXX2"
    ∧ (perturbOne_st st read i).1.unknown_read = read.unknown_read
    ∧ (perturbTwo_st st read i j).1.identifier = "XXX2"
    ∧ (perturbTwo_st st read i j).1.unknown_read = read.unknown_read
    ∧ (perturbThree_st st read i j k).1.identifier = "XXX2"
    ∧ (perturbThree_st st read i j k).1.unknown_read = read.unknown_read
    ∧ dolo_closest_node_distance_st (perturbOne_st st read i).2 individual
        (perturbOne_st st read i).1
      = dolo_closest_node_distance individual
          ⟨"XXX2", (st.mem read.binary_read).set i false,
            st.mem read.unknown_read⟩
    ∧ dolo_closest_node_distance_st (perturbTwo_st st read i j).2 individual
        (perturbTwo_st st read i j).1
      = dolo_closest_node_distance individual
          ⟨"XXX2", ((st.mem read.binary_read).set i false).set j false,
            st.mem read.unknown_read⟩
    ∧ dolo_closest_node_distance_st (perturbThree_st st read i j k).2
        individual (perturbThree_st st read i j k).1
      = dolo_closest_node_distance individual
          ⟨"XXX2", (((st.mem read.binary_read).set i false).set j false).set
              k false,
            st.mem read.unknown_read⟩ := by
  refine ⟨rfl, rfl, rfl, rfl, rfl, rfl, ?_, ?_, ?_⟩
  · unfold dolo_closest_node_distance_st derefRead perturbOne_st Store.alloc
      Store.write
    congr 1 <;> simp <;> rw [if_neg (by omega), if_neg (by omega)]
  · unfold dolo_closest_node_distance_st derefRead perturbTwo_st Store.alloc
      Store.write
    congr 1 <;> simp <;>
      rw [if_neg (by omega), if_neg (by omega), if_neg (by omega)]
  · unfold dolo_closest_node_distance_st derefRead perturbThree_st Store.alloc
      Store.write
    congr 1 <;> simp <;>
      rw [if_neg (by omega), if_neg (by omega), if_neg (by omega),
        if_neg (by omega)]

/-- Witness for C10 at a concrete store, read and tree. -/
theorem perturbed_reads_identifier_and_shared_mask_witness :
    (perturbOne_st sampleStore sampleReadRef 0).1.identifier = "XXX2"
    ∧ (perturbOne_st sampleStore sampleReadRef 0).1.unknown_read
        = sampleReadRef.unknown_read
    ∧ (perturbTwo_st sampleStore sampleReadRef 0 1).1.identifier = "XXX2"
    ∧ (perturbTwo_st sampleStore sampleReadRef 0 1).1.unknown_read
        = sampleReadRef.unknown_read
    ∧ (perturbThree_st sampleStore sampleReadRef 0 1 1).1.identifier = "XXX2"
    ∧ (perturbThree_st sampleStore sampleReadRef 0 1 1).1.unknown_read
        = sampleReadRef.unknown_read
    ∧ dolo_closest_node_distance_st (perturbOne_st sampleStore sampleReadRef
          0).2 sampleTree (perturbOne_st sampleStore sampleReadRef 0).1
      = dolo_closest_node_distance sampleTree
          ⟨"XXX2", (sampleStore.mem sampleReadRef.binary_read).set 0 false,
            sampleStore.mem sampleReadRef.unknown_read⟩
    ∧ dolo_closest_node_distance_st (perturbTwo_st sampleStore sampleReadRef
          0 1).2 sampleTree (perturbTwo_st sampleStore sampleReadRef 0 1).1
      = dolo_closest_node_distance sampleTree
          ⟨"XXX2", ((sampleStore.mem sampleReadRef.binary_read).set 0
              false).set 1 false,
            sampleStore.mem sampleReadRef.unknown_read⟩
    ∧ dolo_closest_node_distance_st (perturbThree_st sampleStore
          sampleReadRef 0 1 1).2 sampleTree
          (perturbThree_st sampleStore sampleReadRef 0 1 1).1
      = dolo_closest_node_distance sampleTree
          ⟨"XXX2", (((sampleStore.mem sampleReadRef.binary_read).set 0
              false).set 1 false).set 1 false,
            sampleStore.mem sampleReadRef.unknown_read⟩ :=
  perturbed_reads_identifier_and_shared_mask sampleStore sampleReadRef 0 1 1
    sampleTree (by decide)

/-! ## C6 — subtree exchange happens at the first qualifying label -/

/-- A successful `List.lookup` exhibits a matching entry of the list. -/
lemma lookup_mem_entry {l : List (String × List (List String))} {a : String}
    {v : List (List String)} (h : l.lookup a = some v) : (a, v) ∈ l := by
  induction l with
  | nil => simp [List.lookup] at h
  | cons p es ih =>
    obtain ⟨b, c⟩ := p
    by_cases hab : (a == b) = true
    · simp only [List.lookup, hab] at h
      obtain rfl : c = v := by simpa using h
      have : a = b := eq_of_beq hab
      subst this
      exact List.mem_cons_self _ _
    · rw [Bool.not_eq_true] at hab
      simp only [List.lookup, hab] at h
      exact List.mem_cons_of_mem _ (ih h)

/-- A key present in the modelled partition names a node of the tree. -/
lemma node_of_partition_lookup {t : DolloNode} {lab : String}
    {v : List (List String)} (h : (tree_get_partition t).lookup lab = some v) :
    ∃ n ∈ allNodes t, n.node_label = lab := by
  have hmem := lookup_mem_entry h
  unfold tree_get_partition at hmem
  rw [List.mem_filterMap] at hmem
  obtain ⟨n, hn, hsome⟩ := hmem
  by_cases hplus : endsWithPlus n.node_label = true
  · rw [if_pos hplus] at hsome
    refine ⟨n, hn, ?_⟩
    exact congrArg Prod.fst (Option.some.injEq _ _ ▸ hsome)
  · rw [Bool.not_eq_true] at hplus
    rw [if_neg (by simp [hplus])] at hsome
    exact absurd hsome (by simp)

/-- Under the Dollo uniqueness bound, a partition key locates exactly one
node of the tree. -/
lemma findNodes_singleton_of_lookup {t : DolloNode} {lab : String}
    {v : List (List String)} (h : (tree_get_partition t).lookup lab = some v)
    (hu : (findNodes t lab).length ≤ 1) : ∃ n, findNodes t lab = [n] := by
  obtain ⟨n, hn, hlabel⟩ := node_of_partition_lookup h
  have hmem : n ∈ findNodes t lab := by
    unfold findNodes
    rw [List.mem_filter]
    exact ⟨hn, by simp [hlabel]⟩
  rcases hfind : findNodes t lab with _ | ⟨x, _ | ⟨y, ys⟩⟩
  · rw [hfind] at hmem; simp at hmem
  · exact ⟨x, rfl⟩
  · rw [hfind] at hu; simp at hu

/-- Appending `'+'` makes a label end in `'+'`. -/
lemma endsWithPlus_append_plus (s : String) :
    endsWithPlus (s ++ "+") = true := by
  unfold endsWithPlus
  rw [String.data_append]
  rw [show ("+" : String).data = ['+'] from rfl]
  rw [List.getLast?_concat]
  rfl

/-- A node whose label does not end in `'+'` never equals a plus label. -/
lemma node_label_ne_plus {s lab0 : String}
    (h : endsWithPlus s = false) : (s == lab0 ++ "+") = false := by
  by_cases heq : (s == lab0 ++ "+") = true
  · have : s = lab0 ++ "+" := eq_of_beq heq
    rw [this, endsWithPlus_append_plus] at h
    exact absurd h (by simp)
  · rwa [Bool.not_eq_true] at heq

/-- The guards a label must pass for the source loop to exchange at it:
its `'+'` variant is a key of both partitions, both plus-coverage sets are
nonempty and mutually equal, and the two uniquely matched nodes are not
structurally equal. -/
def crossoverLabelOk (part1 part2 : List (String × List (List String)))
    (c1 c2 : DolloNode) (lab0 : String) : Bool :=
  let lab := lab0 ++ "+"
  match part1.lookup lab with
  | none => false
  | some covered1 =>
    let set_covered1 := set_consits_of_plus_lebels covered1
    if set_covered1.length == 0 then false
    else
      match part2.lookup lab with
      | none => false
      | some covered2 =>
        let set_covered2 := set_consits_of_plus_lebels covered2
        if set_covered2.length == 0 then false
        else if !(sets_are_equal set_covered1 set_covered2) then false
        else
          match findNodes c1 lab, findNodes c2 lab with
          | [n1], [n2] => !(tree_is_equal n1 n2)
          | _, _ => false

/-- A label failing some guard makes the loop move to the next label. -/
lemma subtreeSwapLoop_cons_skip (normalize : DolloNode → DolloNode)
    (c1 c2 : DolloNode) (lab0 : String) (rest : List String)
    (hu1 : (findNodes c1 (lab0 ++ "+")).length ≤ 1)
    (hu2 : (findNodes c2 (lab0 ++ "+")).length ≤ 1)
    (hok : crossoverLabelOk (tree_get_partition c1) (tree_get_partition c2)
      c1 c2 lab0 = false) :
    subtreeSwapLoop normalize (tree_get_partition c1) (tree_get_partition c2)
        c1 c2 (lab0 :: rest)
      = subtreeSwapLoop normalize (tree_get_partition c1)
          (tree_get_partition c2) c1 c2 rest := by
  simp only [crossoverLabelOk] at hok
  simp only [subtreeSwapLoop]
  rcases hp1 : (tree_get_partition c1).lookup (lab0 ++ "+") with _ | covered1
  · rfl
  rw [hp1] at hok
  dsimp only at hok ⊢
  by_cases hs1 : (set_consits_of_plus_lebels covered1).length = 0
  · rw [if_pos (by simpa using hs1)]
  rw [if_neg (by simpa using hs1)] at hok ⊢
  rcases hp2 : (tree_get_partition c2).lookup (lab0 ++ "+") with _ | covered2
  · rfl
  rw [hp2] at hok
  dsimp only at hok ⊢
  by_cases hs2 : (set_consits_of_plus_lebels covered2).length = 0
  · rw [if_pos (by simpa using hs2)]
  rw [if_neg (by simpa using hs2)] at hok ⊢
  by_cases hse : sets_are_equal (set_consits_of_plus_lebels covered1)
      (set_consits_of_plus_lebels covered2) = true
  · rw [if_neg (by simp [hse])] at hok ⊢
    obtain ⟨n1, hn1⟩ := findNodes_singleton_of_lookup hp1 hu1
    obtain ⟨n2, hn2⟩ := findNodes_singleton_of_lookup hp2 hu2
    rw [hn1, hn2] at hok ⊢
    dsimp only at hok ⊢
    by_cases h12 : tree_is_equal n1 n2 = true
    · rw [if_pos h12]
    · rw [Bool.not_eq_true] at h12
      rw [h12] at hok
      exact absurd hok (by simp)
  · rw [Bool.not_eq_true] at hse
    rw [if_pos (by simp [hse])]

/-- A label passing all guards makes the loop exchange the two uniquely
matched subtrees and stop. -/
lemma subtreeSwapLoop_cons_hit (normalize : DolloNode → DolloNode)
    (c1 c2 : DolloNode) (lab0 : String) (rest : List String)
    (hroot1 : endsWithPlus c1.node_label = false)
    (hroot2 : endsWithPlus c2.node_label = false)
    (hu1 : (findNodes c1 (lab0 ++ "+")).length ≤ 1)
    (hu2 : (findNodes c2 (lab0 ++ "+")).length ≤ 1)
    (hok : crossoverLabelOk (tree_get_partition c1) (tree_get_partition c2)
      c1 c2 lab0 = true) :
    ∃ n1 n2, findNodes c1 (lab0 ++ "+") = [n1]
      ∧ findNodes c2 (lab0 ++ "+") = [n2]
      ∧ tree_is_equal n1 n2 = false
      ∧ subtreeSwapLoop normalize (tree_get_partition c1)
          (tree_get_partition c2) c1 c2 (lab0 :: rest)
        = some (true, graft (lab0 ++ "+") (normalize n2) c1,
            graft (lab0 ++ "+") (normalize n1) c2) := by
  simp only [crossoverLabelOk] at hok
  simp only [subtreeSwapLoop]
  rcases hp1 : (tree_get_partition c1).lookup (lab0 ++ "+") with _ | covered1
  · rw [hp1] at hok; exact absurd hok (by simp)
  rw [hp1] at hok
  dsimp only at hok ⊢
  by_cases hs1 : (set_consits_of_plus_lebels covered1).length = 0
  · rw [if_pos (by simpa using hs1)] at hok; exact absurd hok (by simp)
  rw [if_neg (by simpa using hs1)] at hok ⊢
  rcases hp2 : (tree_get_partition c2).lookup (lab0 ++ "+") with _ | covered2
  · rw [hp2] at hok; exact absurd hok (by simp)
  rw [hp2] at hok
  dsimp only at hok ⊢
  by_cases hs2 : (set_consits_of_plus_lebels covered2).length = 0
  · rw [if_pos (by simpa using hs2)] at hok; exact absurd hok (by simp)
  rw [if_neg (by simpa using hs2)] at hok ⊢
  by_cases hse : sets_are_equal (set_consits_of_plus_lebels covered1)
      (set_consits_of_plus_lebels covered2) = true
  · rw [if_neg (by simp [hse])] at hok ⊢
    obtain ⟨n1, hn1⟩ := findNodes_singleton_of_lookup hp1 hu1
    obtain ⟨n2, hn2⟩ := findNodes_singleton_of_lookup hp2 hu2
    rw [hn1, hn2] at hok ⊢
    dsimp only at hok ⊢
    have h12 : tree_is_equal n1 n2 = false := by
      by_cases h : tree_is_equal n1 n2 = true
      · rw [h] at hok; exact absurd hok (by simp)
      · rwa [Bool.not_eq_true] at h
    refine ⟨n1, n2, rfl, rfl, h12, ?_⟩
    rw [if_neg (by simp [h12]),
      if_neg (by simp [node_label_ne_plus hroot1, node_label_ne_plus hroot2])]
  · rw [Bool.not_eq_true] at hse
    rw [if_pos (by simp [hse])] at hok
    exact absurd hok (by simp)

/-- The label loop realizes a first-match search: it returns the exchange
at the first qualifying label of the list, and the unchanged copies with
`success = False` when no label qualifies. -/
lemma subtreeSwapLoop_spec (normalize : DolloNode → DolloNode)
    (c1 c2 : DolloNode)
    (hroot1 : endsWithPlus c1.node_label = false)
    (hroot2 : endsWithPlus c2.node_label = false) :
    ∀ labels : List String,
      (∀ lab0 ∈ labels, (findNodes c1 (lab0 ++ "+")).length ≤ 1
        ∧ (findNodes c2 (lab0 ++ "+")).length ≤ 1) →
      (labels.find? (crossoverLabelOk (tree_get_partition c1)
            (tree_get_partition c2) c1 c2) = none →
        subtreeSwapLoop normalize (tree_get_partition c1)
            (tree_get_partition c2) c1 c2 labels = some (false, c1, c2))
      ∧ (∀ lab0,
          labels.find? (crossoverLabelOk (tree_get_partition c1)
              (tree_get_partition c2) c1 c2) = some lab0 →
          ∃ n1 n2, findNodes c1 (lab0 ++ "+") = [n1]
            ∧ findNodes c2 (lab0 ++ "+") = [n2]
            ∧ tree_is_equal n1 n2 = false
            ∧ subtreeSwapLoop normalize (tree_get_partition c1)
                (tree_get_partition c2) c1 c2 labels
              = some (true, graft (lab0 ++ "+") (normalize n2) c1,
                  graft (lab0 ++ "+") (normalize n1) c2)) := by
  intro labels
  induction labels with
  | nil =>
    intro _
    exact ⟨fun _ => rfl, fun lab0 h0 => by simp [List.find?] at h0⟩
  | cons lab0 rest ih =>
    intro hu
    have hu0 := hu lab0 (List.mem_cons_self _ _)
    have ihr := ih (fun l0 hl0 => hu l0 (List.mem_cons_of_mem _ hl0))
    by_cases hok : crossoverLabelOk (tree_get_partition c1)
        (tree_get_partition c2) c1 c2 lab0 = true
    · have hfind : (lab0 :: rest).find? (crossoverLabelOk
          (tree_get_partition c1) (tree_get_partition c2) c1 c2)
          = some lab0 := List.find?_cons_of_pos _ hok
      obtain ⟨n1, n2, hn1, hn2, h12, hswap⟩ :=
        subtreeSwapLoop_cons_hit normalize c1 c2 lab0 rest hroot1 hroot2
          hu0.1 hu0.2 hok
      refine ⟨fun hnone => absurd (hfind.symm.trans hnone) (by simp), ?_⟩
      intro l0 hl0
      obtain rfl : lab0 = l0 := by rw [hfind] at hl0; simpa using hl0
      exact ⟨n1, n2, hn1, hn2, h12, hswap⟩
    · rw [Bool.not_eq_true] at hok
      have hfind : (lab0 :: rest).find? (crossoverLabelOk
          (tree_get_partition c1) (tree_get_partition c2) c1 c2)
          = rest.find? (crossoverLabelOk (tree_get_partition c1)
            (tree_get_partition c2) c1 c2) :=
        List.find?_cons_of_neg _ (by simp [hok])
      have hskip := subtreeSwapLoop_cons_skip normalize c1 c2 lab0 rest
        hu0.1 hu0.2 hok
      rw [hfind, hskip]
      exact ihr

/-- C6: on structurally unequal trees (with non-plus roots and unique plus
labels, the Dollo invariant), `dollo_crossover_exchange_subtrees` iterates
the provided labels in order and exchanges at the first label passing all
guards — plus variant present in both partitions, nonempty and equal
plus-coverage sets, matched subtrees not structurally equal — returning
`(True, tree1, tree2)` with each re-attached subtree normalized; if no
label qualifies it returns `(False, copy1, copy2)`. -/
theorem subtree_crossover_first_qualifying_label
    (compactV compactH rearrange : DolloNode → DolloNode)
    (setTags : List String → DolloNode → DolloNode)
    (labels : List String) (i1 i2 : PObj) (fresh : Nat)
    (hne : tree_is_equal i1.tree i2.tree = false)
    (hroot1 : endsWithPlus i1.tree.node_label = false)
    (hroot2 : endsWithPlus i2.tree.node_label = false)
    (huniq : ∀ lab0 ∈ labels, (findNodes i1.tree (lab0 ++ "+")).length ≤ 1
        ∧ (findNodes i2.tree (lab0 ++ "+")).length ≤ 1) :
    (labels.find? (crossoverLabelOk (tree_get_partition i1.tree)
          (tree_get_partition i2.tree) i1.tree i2.tree) = none →
      dollo_crossover_exchange_subtrees compactV compactH rearrange setTags
          labels i1 i2 fresh
        = some (false, ⟨fresh, i1.tree⟩, ⟨fresh + 1, i2.tree⟩))
    ∧ (∀ lab0, labels.find? (crossoverLabelOk (tree_get_partition i1.tree)
          (tree_get_partition i2.tree) i1.tree i2.tree) = some lab0 →
        ∃ n1 n2, findNodes i1.tree (lab0 ++ "+") = [n1]
          ∧ findNodes i2.tree (lab0 ++ "+") = [n2]
          ∧ tree_is_equal n1 n2 = false
          ∧ dollo_crossover_exchange_subtrees compactV compactH rearrange
              setTags labels i1 i2 fresh
            = some (true,
                ⟨fresh, graft (lab0 ++ "+")
                  (setTags labels (rearrange (compactH (compactV n2))))
                  i1.tree⟩,
                ⟨fresh + 1, graft (lab0 ++ "+")
                  (setTags labels (rearrange (compactH (compactV n1))))
                  i2.tree⟩)) := by
  have hspec := subtreeSwapLoop_spec
    (fun s => setTags labels (rearrange (compactH (compactV s))))
    i1.tree i2.tree hroot1 hroot2 labels huniq
  constructor
  · intro hnone
    have hloop := hspec.1 hnone
    simp only [dollo_crossover_exchange_subtrees, hne, Bool.false_eq_true,
      if_false]
    rw [hloop]
  · intro lab0 hsome
    obtain ⟨n1, n2, hn1, hn2, h12, hloop⟩ := hspec.2 lab0 hsome
    refine ⟨n1, n2, hn1, hn2, h12, ?_⟩
    simp only [dollo_crossover_exchange_subtrees, hne, Bool.false_eq_true,
      if_false]
    rw [hloop]

/-- Witness for C6: on the concrete pair `subtreeTree1`, `subtreeTree2`
the first qualifying label is `"a"`, and the exchange happens there. -/
theorem subtree_crossover_first_qualifying_label_witness :
    ∃ n1 n2, findNodes subtreeTree1 ("a" ++ "+") = [n1]
      ∧ findNodes subtreeTree2 ("a" ++ "+") = [n2]
      ∧ tree_is_equal n1 n2 = false
      ∧ dollo_crossover_exchange_subtrees id id id (fun _ => id) ["a", "b"]
          ⟨0, subtreeTree1⟩ ⟨1, subtreeTree2⟩ 5
        = some (true, ⟨5, graft ("a" ++ "+") n2 subtreeTree1⟩,
            ⟨6, graft ("a" ++ "+") n1 subtreeTree2⟩) :=
  (subtree_crossover_first_qualifying_label id id id (fun _ => id)
      ["a", "b"] ⟨0, subtreeTree1⟩ ⟨1, subtreeTree2⟩ 5
      (by decide) (by decide) (by decide) (by decide)).2 "a" (by decide)

end CancerGP
